import Mathlib

/-!
Verification development for the Google-Drive-backed MCP photo-storage server
(`src/server.js`).  The remote Drive store is modelled as an explicit state
(`Drive`): a list of nodes in store-returned order plus oracles for per-id
fetch failures and for text export/download.  Every handler of the server is
translated into a pure Lean function over that state; asynchronous remote
calls become ordinary function calls, and a thrown/failing remote call becomes
an `Option`/`Except` value.  JavaScript strings are Lean `String`s; the
bounded loops of the source are either structurally recursive (the 30-level
hop budget of `isDescendant`) or given an explicit fuel that dominates the
number of iterations the source loop can perform (`listLoop`).
-/

/-- JS `haystack.includes(needle)` : substring containment on lists. -/
def listInfix {α : Type} [BEq α] : List α → List α → Bool
  | sub, [] => sub.isEmpty
  | sub, x :: rest => sub.isPrefixOf (x :: rest) || listInfix sub rest

/-- JS `s.includes(sub)` on strings. -/
def strContains (s sub : String) : Bool :=
  listInfix sub.toList s.toList

/-- JS `s.startsWith(pre)`. -/
def strStartsWith (s pre : String) : Bool :=
  pre.toList.isPrefixOf s.toList

/-- JS `s.toLowerCase()` (ASCII, which is all the handlers compare). -/
def strToLower (s : String) : String :=
  ⟨s.toList.map Char.toLower⟩

/-- JS `s.trim()`; the server only trims plain-space padding around queries. -/
def strTrim (s : String) : String :=
  ⟨((s.toList.dropWhile (fun c => c = ' ')).reverse.dropWhile (fun c => c = ' ')).reverse⟩

/-- JS `parseInt(s, 10)`: optional sign, leading decimal digits, `none` = NaN. -/
def parseIntJs (s : String) : Option Int :=
  let chars := s.toList.dropWhile (fun c => c = ' ')
  let signed : Bool × List Char :=
    match chars with
    | '-' :: r => (true, r)
    | '+' :: r => (false, r)
    | r => (false, r)
  let digits := signed.2.takeWhile Char.isDigit
  if digits.isEmpty then none
  else
    let n : Nat := digits.foldl (fun acc c => acc * 10 + (c.toNat - '0'.toNat)) 0
    some (if signed.1 then -(n : Int) else (n : Int))

/-- JS `a < b` where `b` may be NaN (`none`): any comparison with NaN is false. -/
def jsLt (a : Int) (b : Option Int) : Bool :=
  match b with
  | some m => decide (a < m)
  | none => false

/-- A node of the remote store: `files(id, name, mimeType, parents, trashed)`.
Nodes may have several parents (the store is a DAG). -/
structure Node (α : Type) where
  id : α
  name : String
  mimeType : String
  parents : List α
  trashed : Bool
deriving DecidableEq

/-- The remote Drive store as seen through the API calls the server issues.
`files` is the store content in store-returned order; `fails id` models a
failing `files.get`/`files.delete` for that id (no permission / transient
error); `exportText` and `downloadText` are the results of
`files.export(text/plain)` and `files.get(alt=media)` (`none` = error).
`fresh`/`counter` supply the ids the store assigns to created nodes. -/
structure Drive (α : Type) where
  files : List (Node α)
  fails : α → Bool
  exportText : α → Option String
  downloadText : α → Option String
  fresh : Nat → α
  counter : Nat

def folderMime : String := "application/vnd.google-apps.folder"

def docMime : String := "application/vnd.google-apps.document"

/-- `DRIVE_FOLDER_NAME` defaults to `Photo_Storage`. -/
def DRIVE_FOLDER_NAME : String := "Photo_Storage"

/-- `drive.files.get({fileId: id, fields})`: `none` when the call throws
(not found, no permission, transient failure). -/
def getNode {α : Type} [DecidableEq α] (d : Drive α) (id : α) : Option (Node α) :=
  if d.fails id then none else d.files.find? (fun n => decide (n.id = id))

/-- The metadata fetch `isDescendant` performs: the parent set of `id`. -/
def getParents {α : Type} [DecidableEq α] (d : Drive α) (id : α) : Option (List α) :=
  (getNode d id).map Node.parents

/-- Inner loop of `isDescendant` over one fetched parent list: push each parent
onto the accumulating next frontier, returning `none` the moment a parent
equals the root (the JS `return true`). -/
def pushParents {α : Type} [DecidableEq α] (rootId : α) : List α → List α → Option (List α)
  | [], acc => some acc
  | p :: rest, acc => if p = rootId then none else pushParents rootId rest (acc ++ [p])

/-- One level of the upward BFS: fetch every frontier member's parents
(`gp`), dropping a member whose fetch fails (the JS `catch { continue }`),
and accumulate all fetched parents; `none` means the root was found. -/
def expandFrontier {α : Type} [DecidableEq α] (gp : α → Option (List α)) (rootId : α) :
    List α → List α → Option (List α)
  | [], acc => some acc
  | id :: rest, acc =>
    match gp id with
    | none => expandFrontier gp rootId rest acc
    | some ps =>
      match pushParents rootId ps acc with
      | none => none
      | some acc2 => expandFrontier gp rootId rest acc2

/-- The `for (depth = 0; depth < 30; depth++)` loop of `isDescendant`:
`fuel` is the number of levels still allowed. -/
def isDescendantLoop {α : Type} [DecidableEq α] (gp : α → Option (List α)) (rootId : α) :
    Nat → List α → Bool
  | 0, _ => false
  | fuel + 1, toCheck =>
    match expandFrontier gp rootId toCheck [] with
    | none => true
    | some next => if next.isEmpty then false else isDescendantLoop gp rootId fuel next

/-- `isDescendant(drive, candidateId, rootId)` from `src/server.js`: true
immediately on `candidateId === rootId`, otherwise a level-by-level BFS up the
parent links with a 30-level hop budget.  `gp` is the store's metadata fetch
(`getParents` of some `Drive`, but the function is verified for any fetch). -/
def isDescendant {α : Type} [DecidableEq α] (gp : α → Option (List α))
    (candidateId rootId : α) : Bool :=
  if candidateId = rootId then true
  else isDescendantLoop gp rootId 30 [candidateId]

/-- `Reaches gp root id n`: a chain of `n ≥ 1` successfully fetchable parent
links from `id` up to `root`. -/
inductive Reaches {α : Type} (gp : α → Option (List α)) (root : α) : α → Nat → Prop
  | base (id : α) (ps : List α) (hgp : gp id = some ps) (hmem : root ∈ ps) :
      Reaches gp root id 1
  | step (id : α) (ps : List α) (p : α) (n : Nat) (hgp : gp id = some ps)
      (hmem : p ∈ ps) (htail : Reaches gp root p n) : Reaches gp root id (n + 1)

/-- Outcome of a handler: the MCP handlers answer `isError:true` with an
`Error: ...` text and the REST routes answer 403/4xx/500; a scope denial
(`denied`) is kept distinct from any other error (`failed`). -/
inductive OpResult (β : Type) where
  | ok (val : β)
  | denied (msg : String)
  | failed (msg : String)
deriving DecidableEq

/-- One entry of the `/batch-delete` report: `{id, ok, reason}`. -/
structure ItemResult (α : Type) where
  id : α
  ok : Bool
  reason : Option String
deriving DecidableEq

/-- The `files.list` query of `ensureRootFolder`:
`name='NAME' and mimeType='folder' and trashed=false`, first hit in
store-returned order.  (The JS escapes quotes inside NAME for the query
string; names are compared directly here.) -/
def findRootFolder {α : Type} [DecidableEq α] (d : Drive α) (name : String) : Option (Node α) :=
  d.files.find? (fun f => decide (f.name = name) && decide (f.mimeType = folderMime) && !f.trashed)

/-- `ensureRootFolder()`: return the first non-trashed folder matching the
configured name, creating a fresh top-level folder with that name when none
matches. -/
def ensureRootFolder {α : Type} [DecidableEq α] (d : Drive α) (name : String) : Drive α × α :=
  match findRootFolder d name with
  | some f => (d, f.id)
  | none =>
    let newId := d.fresh d.counter
    ({ d with files := d.files ++ [⟨newId, name, folderMime, [], false⟩],
               counter := d.counter + 1 }, newId)

/-- `files.list({q: "'pid' in parents and trashed=false"})`: the non-trashed
direct children of `pid` in store-returned order. -/
def listChildren {α : Type} [DecidableEq α] (d : Drive α) (pid : α) : List (Node α) :=
  d.files.filter (fun f => f.parents.contains pid && !f.trashed)

/-- The `while (queue.length)` loop of `list_files`/`/list`: dequeue a
`(node, depth)` pair, emit its children tagged with that depth, and enqueue a
child only when it is a folder and `depth + 1 < maxDepth` (`maxDepth = none`
is JS NaN, so the comparison is false).  `fuel` bounds the number of loop
iterations; `listFuel` below always dominates the number the source loop can
perform, so the translation never truncates. -/
def listLoop {α : Type} [DecidableEq α] (d : Drive α) (maxDepth : Option Int) :
    Nat → List (α × Nat) → List (Node α × Nat)
  | _, [] => []
  | 0, _ :: _ => []
  | fuel + 1, (pid, depth) :: queue =>
    let children := listChildren d pid
    let enq := (children.filter
        (fun f => decide (f.mimeType = folderMime) && jsLt ((depth : Int) + 1) maxDepth)).map
        (fun f => (f.id, depth + 1))
    children.map (fun f => (f, depth)) ++ listLoop d maxDepth fuel (queue ++ enq)

/-- Fuel bound for `listLoop`: at most `files.length` children are enqueued
per dequeued node and item depths are below `maxDepth`, so the loop runs fewer
than `(files.length + 1) ^ maxDepth + 1` iterations. -/
def listFuel {α : Type} (d : Drive α) (maxDepth : Option Int) : Nat :=
  (d.files.length + 1) ^ (match maxDepth with | some m => m.toNat | none => 0) + 1

/-- `parseInt(args.depth || '4', 10)` for the MCP `list_files` tool, where
`args.depth` is a JSON number: `0` (and an absent depth) is falsy and is
replaced by `'4'`; `parseInt(String(d), 10) = d` for any other integer. -/
def mcpMaxDepth (depth : Option Int) : Option Int :=
  match depth with
  | none => parseIntJs "4"
  | some d => if d = 0 then parseIntJs "4" else some d

/-- `parseInt(req.query.depth || '4', 10)` for the REST `/list` route, where
`req.query.depth` is a string: only an absent or empty parameter is falsy;
any other string (including `"0"`) is passed to `parseInt`. -/
def restMaxDepth (depth : Option String) : Option Int :=
  match depth with
  | none => parseIntJs "4"
  | some s => if s = "" then parseIntJs "4" else parseIntJs s

/-- The MCP `list_files` tool: resolve the root, default the start node to the
root, verify the start node is in scope, then run the bounded BFS listing. -/
def list_files {α : Type} [DecidableEq α] (d : Drive α) (parentId : Option α)
    (depthArg : Option Int) : Drive α × OpResult (List (Node α × Nat)) :=
  let d1 := (ensureRootFolder d DRIVE_FOLDER_NAME).1
  let root := (ensureRootFolder d DRIVE_FOLDER_NAME).2
  let start := parentId.getD root
  let maxDepth := mcpMaxDepth depthArg
  if !(isDescendant (getParents d1) start root) then (d1, .denied "Not allowed")
  else (d1, .ok (listLoop d1 maxDepth (listFuel d1 maxDepth) [(start, 0)]))

/-- The REST `GET /list` route: same logic as `list_files`, but the depth
argument arrives as a query-string value. -/
def restList {α : Type} [DecidableEq α] (d : Drive α) (parentId : Option α)
    (depthArg : Option String) : Drive α × OpResult (List (Node α × Nat)) :=
  let d1 := (ensureRootFolder d DRIVE_FOLDER_NAME).1
  let root := (ensureRootFolder d DRIVE_FOLDER_NAME).2
  let start := parentId.getD root
  if !(isDescendant (getParents d1) start root) then (d1, .denied "Not allowed")
  else
    let maxDepth := restMaxDepth depthArg
    (d1, .ok (listLoop d1 maxDepth (listFuel d1 maxDepth) [(start, 0)]))

/-- `files.list({q: "name contains 'q' and trashed=false"})`: the non-trashed
nodes whose name contains the query, in store-returned order. -/
def nameQuery {α : Type} [DecidableEq α] (d : Drive α) (q : String) : List (Node α) :=
  d.files.filter (fun f => strContains f.name q && !f.trashed)

/-- The per-hit scope filter both search surfaces run over the name hits. -/
def scopeFilter {α : Type} [DecidableEq α] (d : Drive α) (root : α)
    (fs : List (Node α)) : List (Node α) :=
  fs.filter (fun f => isDescendant (getParents d) f.id root)

/-- The MCP `search_files` tool: NAME PHASE ONLY.  The tool schema declares a
`contentSearch` parameter ("Search file contents"), but the handler never
reads `args.contentSearch`. -/
def search_files {α : Type} [DecidableEq α] (d : Drive α) (query : String)
    (_contentSearch : Bool) : Drive α × OpResult (List (Node α)) :=
  let d1 := (ensureRootFolder d DRIVE_FOLDER_NAME).1
  let root := (ensureRootFolder d DRIVE_FOLDER_NAME).2
  let q := strTrim query
  (d1, .ok (scopeFilter d1 root (nameQuery d1 q)))

/-- Text extraction of the `/search` content phase: export Google Docs as
plain text, download any `text/*`, `json`, `markdown` or `csv` mime as text,
and yield nothing for every other kind (or on an extraction error). -/
def fetchText {α : Type} [DecidableEq α] (d : Drive α) (c : Node α) : Option String :=
  if c.mimeType = docMime then d.exportText c.id
  else if strStartsWith c.mimeType "text/" || strContains c.mimeType "json" ||
      strContains c.mimeType "markdown" || strContains c.mimeType "csv" then
    d.downloadText c.id
  else none

/-- Content phase of `/search`: every non-trashed node of the store that is in
scope and whose extracted text (JS truthiness: a `null` or empty text never
matches) contains the query case-insensitively. -/
def contentExtras {α : Type} [DecidableEq α] (d : Drive α) (root : α) (q : String) :
    List (Node α) :=
  (d.files.filter (fun f => !f.trashed)).filter (fun c =>
    isDescendant (getParents d) c.id root &&
      (match fetchText d c with
       | some t => !(t = "") && strContains (strToLower t) (strToLower q)
       | none => false))

/-- The final loop of `/search`: append each content hit whose id is not
already present in the combined list. -/
def dedupAppend {α : Type} [DecidableEq α] (combined : List (Node α)) :
    List (Node α) → List (Node α)
  | [] => combined
  | e :: rest =>
    if combined.any (fun x => decide (x.id = e.id)) then dedupAppend combined rest
    else dedupAppend (combined ++ [e]) rest

/-- The REST `GET /search` route: name phase, then (only when
`content=true`) the content phase appended with id-deduplication. -/
def searchRoute {α : Type} [DecidableEq α] (d : Drive α) (qParam : Option String)
    (contentParam : Option String) : Drive α × OpResult (List (Node α)) :=
  let q := strTrim (qParam.getD "")
  if q = "" then (d, .failed "Missing q param")
  else
    let contentSearch := (contentParam.getD "false") = "true"
    let d1 := (ensureRootFolder d DRIVE_FOLDER_NAME).1
    let root := (ensureRootFolder d DRIVE_FOLDER_NAME).2
    let filtered := scopeFilter d1 root (nameQuery d1 q)
    if !contentSearch then (d1, .ok filtered)
    else (d1, .ok (dedupAppend filtered (contentExtras d1 root q)))

/-- The MCP `create_folder` tool (the REST `POST /folder` route is the same
logic): verify the destination parent, then create the folder under it. -/
def create_folder {α : Type} [DecidableEq α] (d : Drive α) (name : String)
    (parentId : Option α) : Drive α × OpResult (Node α) :=
  let d1 := (ensureRootFolder d DRIVE_FOLDER_NAME).1
  let root := (ensureRootFolder d DRIVE_FOLDER_NAME).2
  let parent := parentId.getD root
  if !(isDescendant (getParents d1) parent root) then (d1, .denied "Parent not allowed")
  else
    let node : Node α := ⟨d1.fresh d1.counter, name, folderMime, [parent], false⟩
    ({ d1 with files := d1.files ++ [node], counter := d1.counter + 1 }, .ok node)

/-- The MCP `upload_file` tool (the REST `POST /upload` route is the same
logic): verify the destination parent and, when updating, the target file;
then update the target's metadata or create a new file under the parent.
The media bytes live outside this metadata model; an update patches
name/mimeType on the target, a create adds a node (default mime
`text/markdown`, JS names an unnamed file "Untitled"). -/
def upload_file {α : Type} [DecidableEq α] (d : Drive α) (name : Option String)
    (mimeType : Option String) (parentId : Option α) (fileId : Option α) :
    Drive α × OpResult α :=
  let d1 := (ensureRootFolder d DRIVE_FOLDER_NAME).1
  let root := (ensureRootFolder d DRIVE_FOLDER_NAME).2
  let parent := parentId.getD root
  if !(isDescendant (getParents d1) parent root) then (d1, .denied "Parent not allowed")
  else
    match fileId with
    | some fid =>
      if !(isDescendant (getParents d1) fid root) then (d1, .denied "Target not allowed")
      else
        ({ d1 with files := d1.files.map (fun n =>
            if n.id = fid then
              { n with name := name.getD n.name, mimeType := mimeType.getD n.mimeType }
            else n) }, .ok fid)
    | none =>
      let node : Node α := ⟨d1.fresh d1.counter, name.getD "Untitled",
        mimeType.getD "text/markdown", [parent], false⟩
      ({ d1 with files := d1.files ++ [node], counter := d1.counter + 1 }, .ok node.id)

/-- The MCP `read_file` tool (the REST `GET /file/:id` route is the same
logic): verify the target, fetch its metadata, then export (Google Docs) or
download (everything else) its content as text. -/
def read_file {α : Type} [DecidableEq α] (d : Drive α) (fileId : α) :
    Drive α × OpResult String :=
  let d1 := (ensureRootFolder d DRIVE_FOLDER_NAME).1
  let root := (ensureRootFolder d DRIVE_FOLDER_NAME).2
  if !(isDescendant (getParents d1) fileId root) then (d1, .denied "Not allowed")
  else
    match getNode d1 fileId with
    | none => (d1, .failed "metadata fetch failed")
    | some meta =>
      if meta.mimeType = docMime then
        match d1.exportText fileId with
        | some t => (d1, .ok t)
        | none => (d1, .failed "export failed")
      else
        match d1.downloadText fileId with
        | some t => (d1, .ok t)
        | none => (d1, .failed "download failed")

/-- The `files.update({addParents, removeParents})` call of the move handlers:
drop every parent listed in `previous` and append the new parent. -/
def moveUpdate {α : Type} [DecidableEq α] (files : List (Node α)) (id newParentId : α)
    (previous : List α) : List (Node α) :=
  files.map (fun n =>
    if n.id = id then
      { n with parents := n.parents.filter (fun p => !(decide (p ∈ previous))) ++ [newParentId] }
    else n)

/-- The MCP `move_item` tool (the REST `POST /move` route is the same logic):
verify both the item and the new parent, read the item's current parents, then
remove all of them and add the new parent. -/
def move_item {α : Type} [DecidableEq α] (d : Drive α) (id newParentId : α) :
    Drive α × OpResult (Node α) :=
  let d1 := (ensureRootFolder d DRIVE_FOLDER_NAME).1
  let root := (ensureRootFolder d DRIVE_FOLDER_NAME).2
  if !(isDescendant (getParents d1) id root) || !(isDescendant (getParents d1) newParentId root)
  then (d1, .denied "Not allowed")
  else
    match getNode d1 id with
    | none => (d1, .failed "metadata fetch failed")
    | some meta =>
      ({ d1 with files := moveUpdate d1.files id newParentId meta.parents },
        .ok { meta with
          parents := meta.parents.filter (fun p => !(decide (p ∈ meta.parents))) ++ [newParentId] })

/-- The MCP `rename_item` tool (the REST `POST /rename` route is the same
logic): verify the target, then patch its name. -/
def rename_item {α : Type} [DecidableEq α] (d : Drive α) (id : α) (newName : String) :
    Drive α × OpResult α :=
  let d1 := (ensureRootFolder d DRIVE_FOLDER_NAME).1
  let root := (ensureRootFolder d DRIVE_FOLDER_NAME).2
  if !(isDescendant (getParents d1) id root) then (d1, .denied "Not allowed")
  else
    ({ d1 with files := d1.files.map (fun n => if n.id = id then { n with name := newName } else n) },
      .ok id)

/-- `drive.files.delete({fileId: id})`: removal of the node, throwing on a
remote failure or an unknown id. -/
def deleteFile {α : Type} [DecidableEq α] (d : Drive α) (id : α) : Except String (Drive α) :=
  if d.fails id then Except.error "remote error"
  else if d.files.any (fun n => decide (n.id = id)) then
    Except.ok { d with files := d.files.filter (fun n => !(decide (n.id = id))) }
  else Except.error "File not found"

/-- The MCP `delete_item` tool (the REST `DELETE /delete/:id` route is the
same logic): verify the target, then delete it. -/
def delete_item {α : Type} [DecidableEq α] (d : Drive α) (id : α) : Drive α × OpResult α :=
  let d1 := (ensureRootFolder d DRIVE_FOLDER_NAME).1
  let root := (ensureRootFolder d DRIVE_FOLDER_NAME).2
  if !(isDescendant (getParents d1) id root) then (d1, .denied "Not allowed")
  else
    match deleteFile d1 id with
    | Except.ok d2 => (d2, .ok id)
    | Except.error msg => (d1, .failed msg)

/-- One iteration of the `/batch-delete` loop: an out-of-scope id is reported
`{id, ok:false, reason:'not allowed'}`, a failing delete is reported with the
error message, a successful delete updates the store and is reported
`{id, ok:true}`. -/
def batchDeleteStep {α : Type} [DecidableEq α] (root : α) (d : Drive α) (id : α) :
    Drive α × ItemResult α :=
  if !(isDescendant (getParents d) id root) then (d, ⟨id, false, some "not allowed"⟩)
  else
    match deleteFile d id with
    | Except.ok d2 => (d2, ⟨id, true, none⟩)
    | Except.error msg => (d, ⟨id, false, some msg⟩)

/-- The `for (const id of ids)` loop of `/batch-delete`: ids are processed
sequentially and each failure is recorded without stopping the loop. -/
def batchDeleteLoop {α : Type} [DecidableEq α] (root : α) (d : Drive α) :
    List α → Drive α × List (ItemResult α)
  | [] => (d, [])
  | id :: rest =>
    let step := batchDeleteStep root d id
    let tail := batchDeleteLoop root step.1 rest
    (tail.1, step.2 :: tail.2)

/-- The REST `POST /batch-delete` route: reject an empty id list, otherwise
resolve the root once and run the per-id loop. -/
def batchDelete {α : Type} [DecidableEq α] (d : Drive α) (ids : List α) :
    Drive α × OpResult (List (ItemResult α)) :=
  if ids.isEmpty then (d, .failed "Missing ids array")
  else
    let d1 := (ensureRootFolder d DRIVE_FOLDER_NAME).1
    let root := (ensureRootFolder d DRIVE_FOLDER_NAME).2
    let run := batchDeleteLoop root d1 ids
    (run.1, .ok run.2)

/-! Concrete stores and fetch functions used to instantiate the theorems. -/

/-- The sandbox root folder of the demonstration stores. -/
def nodeRoot : Node Nat := ⟨0, "Photo_Storage", folderMime, [], false⟩

/-- Folder `A` directly under the root. -/
def nodeA : Node Nat := ⟨1, "A", folderMime, [0], false⟩

/-- File `B` inside folder `A`. -/
def nodeB : Node Nat := ⟨2, "B", "text/plain", [1], false⟩

/-- Store with `root → A → B`, no remote failures. -/
def drDemo : Drive Nat :=
  { files := [nodeRoot, nodeA, nodeB]
    fails := fun _ => false
    exportText := fun _ => none
    downloadText := fun _ => none
    fresh := fun n => 100 + n
    counter := 0 }

/-- `drDemo` after deleting `B` (id 2). -/
def drDemoDel : Drive Nat := { drDemo with files := [nodeRoot, nodeA] }

/-- An in-scope text file whose name does not contain "report" but whose
body does. -/
def nodeXtxt : Node Nat := ⟨1, "x.txt", "text/plain", [0], false⟩

/-- Store for the search claims: the root plus `x.txt`, whose downloaded
body is "the report body". -/
def drSearch : Drive Nat :=
  { files := [nodeRoot, nodeXtxt]
    fails := fun _ => false
    exportText := fun _ => none
    downloadText := fun i => if i = 1 then some "the report body" else none
    fresh := fun n => 100 + n
    counter := 0 }

/-- A store holding no folder named `Photo_Storage` at all. -/
def drNoRoot : Drive Nat :=
  { files := []
    fails := fun _ => false
    exportText := fun _ => none
    downloadText := fun _ => none
    fresh := fun n => 100 + n
    counter := 0 }

/-- Folder `P1` under the root. -/
def nodeP1 : Node Nat := ⟨1, "P1", folderMime, [0], false⟩

/-- Folder `P2` under the root. -/
def nodeP2 : Node Nat := ⟨2, "P2", folderMime, [0], false⟩

/-- A file with two parents, `P1` and `P2`. -/
def nodeX : Node Nat := ⟨3, "X", "text/plain", [1, 2], false⟩

/-- Store for the move claim: a multi-parented file under two folders. -/
def drMove : Drive Nat :=
  { files := [nodeRoot, nodeP1, nodeP2, nodeX]
    fails := fun _ => false
    exportText := fun _ => none
    downloadText := fun _ => none
    fresh := fun n => 100 + n
    counter := 0 }

/-- A metadata fetch with the single link `1 → 0`. -/
def gpChain : Nat → Option (List Nat)
  | 1 => some [0]
  | _ => none

/-- A metadata fetch where node 1 has parents 2 and 3, the fetch of node 2
fails, and node 3 links to the root 0. -/
def gpBranch : Nat → Option (List Nat)
  | 1 => some [2, 3]
  | 3 => some [0]
  | _ => none

/-- A metadata fetch where every call fails. -/
def gpNone : Nat → Option (List Nat) := fun _ => none

/-! Lemmas about the upward BFS of `isDescendant`. -/

theorem pushParents_of_mem {α : Type} [DecidableEq α] (root : α) :
    ∀ (ps acc : List α), root ∈ ps → pushParents root ps acc = none := by
  intro ps
  induction ps with
  | nil => intro acc h; cases h
  | cons p rest ih =>
    intro acc h
    by_cases hp : p = root
    · simp [pushParents, hp]
    · rcases List.mem_cons.mp h with h1 | h2
      · exact absurd h1.symm hp
      · simp [pushParents, hp, ih (acc ++ [p]) h2]

theorem pushParents_of_not_mem {α : Type} [DecidableEq α] (root : α) :
    ∀ (ps acc : List α), root ∉ ps → pushParents root ps acc = some (acc ++ ps) := by
  intro ps
  induction ps with
  | nil => intro acc _; simp [pushParents]
  | cons p rest ih =>
    intro acc h
    have hp : ¬(p = root) := fun e => h (List.mem_cons.mpr (Or.inl e.symm))
    have hr : root ∉ rest := fun e => h (List.mem_cons_of_mem p e)
    simp [pushParents, hp, ih (acc ++ [p]) hr]

theorem pushParents_some_inv {α : Type} [DecidableEq α] (root : α) (ps acc acc2 : List α)
    (h : pushParents root ps acc = some acc2) : root ∉ ps ∧ acc2 = acc ++ ps := by
  by_cases hr : root ∈ ps
  · rw [pushParents_of_mem root ps acc hr] at h; cases h
  · rw [pushParents_of_not_mem root ps acc hr] at h
    injection h with h2
    exact ⟨hr, h2.symm⟩

theorem pushParents_none_inv {α : Type} [DecidableEq α] (root : α) (ps acc : List α)
    (h : pushParents root ps acc = none) : root ∈ ps := by
  by_cases hr : root ∈ ps
  · exact hr
  · rw [pushParents_of_not_mem root ps acc hr] at h; cases h

theorem expandFrontier_cons_none {α : Type} [DecidableEq α] (gp : α → Option (List α))
    (root x : α) (rest acc : List α) (hgx : gp x = none) :
    expandFrontier gp root (x :: rest) acc = expandFrontier gp root rest acc := by
  simp [expandFrontier, hgx]

theorem expandFrontier_cons_hit {α : Type} [DecidableEq α] (gp : α → Option (List α))
    (root x : α) (rest acc qs : List α) (hgx : gp x = some qs)
    (hpp : pushParents root qs acc = none) :
    expandFrontier gp root (x :: rest) acc = none := by
  simp [expandFrontier, hgx, hpp]

theorem expandFrontier_cons_some {α : Type} [DecidableEq α] (gp : α → Option (List α))
    (root x : α) (rest acc qs acc2 : List α) (hgx : gp x = some qs)
    (hpp : pushParents root qs acc = some acc2) :
    expandFrontier gp root (x :: rest) acc = expandFrontier gp root rest acc2 := by
  simp [expandFrontier, hgx, hpp]

theorem expandFrontier_found {α : Type} [DecidableEq α] (gp : α → Option (List α)) (root : α) :
    ∀ (toCheck acc : List α) (id : α) (ps : List α),
      id ∈ toCheck → gp id = some ps → root ∈ ps →
      expandFrontier gp root toCheck acc = none := by
  intro toCheck
  induction toCheck with
  | nil => intro acc id ps h; cases h
  | cons x rest ih =>
    intro acc id ps hmem hgp hroot
    rcases List.mem_cons.mp hmem with h1 | h2
    · subst h1
      exact expandFrontier_cons_hit gp root id rest acc ps hgp
        (pushParents_of_mem root ps acc hroot)
    · cases hgx : gp x with
      | none => rw [expandFrontier_cons_none gp root x rest acc hgx]
                exact ih acc id ps h2 hgp hroot
      | some qs =>
        cases hpp : pushParents root qs acc with
        | none => exact expandFrontier_cons_hit gp root x rest acc qs hgx hpp
        | some acc2 =>
          rw [expandFrontier_cons_some gp root x rest acc qs acc2 hgx hpp]
          exact ih acc2 id ps h2 hgp hroot

theorem expandFrontier_acc_sub {α : Type} [DecidableEq α] (gp : α → Option (List α)) (root : α) :
    ∀ (toCheck acc next : List α), expandFrontier gp root toCheck acc = some next →
      ∀ x ∈ acc, x ∈ next := by
  intro toCheck
  induction toCheck with
  | nil =>
    intro acc next h x hx
    have : acc = next := by simpa [expandFrontier] using h
    exact this ▸ hx
  | cons y rest ih =>
    intro acc next h x hx
    cases hgy : gp y with
    | none =>
      rw [expandFrontier_cons_none gp root y rest acc hgy] at h
      exact ih acc next h x hx
    | some qs =>
      cases hpp : pushParents root qs acc with
      | none => rw [expandFrontier_cons_hit gp root y rest acc qs hgy hpp] at h; cases h
      | some acc2 =>
        rw [expandFrontier_cons_some gp root y rest acc qs acc2 hgy hpp] at h
        have hacc2 : acc2 = acc ++ qs := (pushParents_some_inv root qs acc acc2 hpp).2
        exact ih acc2 next h x (by simp [hacc2, hx])

theorem expandFrontier_mem {α : Type} [DecidableEq α] (gp : α → Option (List α)) (root : α) :
    ∀ (toCheck acc next : List α) (id : α) (ps : List α) (p : α),
      id ∈ toCheck → gp id = some ps → p ∈ ps →
      expandFrontier gp root toCheck acc = some next → p ∈ next := by
  intro toCheck
  induction toCheck with
  | nil => intro acc next id ps p h; cases h
  | cons x rest ih =>
    intro acc next id ps p hmem hgp hp hef
    rcases List.mem_cons.mp hmem with h1 | h2
    · subst h1
      cases hpp : pushParents root ps acc with
      | none => rw [expandFrontier_cons_hit gp root id rest acc ps hgp hpp] at hef; cases hef
      | some acc2 =>
        rw [expandFrontier_cons_some gp root id rest acc ps acc2 hgp hpp] at hef
        have hacc2 : acc2 = acc ++ ps := (pushParents_some_inv root ps acc acc2 hpp).2
        exact expandFrontier_acc_sub gp root rest acc2 next hef p (by simp [hacc2, hp])
    · cases hgx : gp x with
      | none =>
        rw [expandFrontier_cons_none gp root x rest acc hgx] at hef
        exact ih acc next id ps p h2 hgp hp hef
      | some qs =>
        cases hpp : pushParents root qs acc with
        | none => rw [expandFrontier_cons_hit gp root x rest acc qs hgx hpp] at hef; cases hef
        | some acc2 =>
          rw [expandFrontier_cons_some gp root x rest acc qs acc2 hgx hpp] at hef
          exact ih acc2 next id ps p h2 hgp hp hef

theorem expandFrontier_mem_inv {α : Type} [DecidableEq α] (gp : α → Option (List α)) (root : α) :
    ∀ (toCheck acc next : List α), expandFrontier gp root toCheck acc = some next →
      ∀ p ∈ next, p ∈ acc ∨ ∃ id ∈ toCheck, ∃ ps, gp id = some ps ∧ p ∈ ps := by
  intro toCheck
  induction toCheck with
  | nil =>
    intro acc next h p hp
    have : acc = next := by simpa [expandFrontier] using h
    exact Or.inl (this ▸ hp)
  | cons x rest ih =>
    intro acc next h p hp
    cases hgx : gp x with
    | none =>
      rw [expandFrontier_cons_none gp root x rest acc hgx] at h
      rcases ih acc next h p hp with h1 | ⟨id, hid, ps, hps, hpm⟩
      · exact Or.inl h1
      · exact Or.inr ⟨id, List.mem_cons_of_mem x hid, ps, hps, hpm⟩
    | some qs =>
      cases hpp : pushParents root qs acc with
      | none => rw [expandFrontier_cons_hit gp root x rest acc qs hgx hpp] at h; cases h
      | some acc2 =>
        rw [expandFrontier_cons_some gp root x rest acc qs acc2 hgx hpp] at h
        rcases ih acc2 next h p hp with h1 | ⟨id, hid, ps, hps, hpm⟩
        · have hacc2 : acc2 = acc ++ qs := (pushParents_some_inv root qs acc acc2 hpp).2
          rw [hacc2, List.mem_append] at h1
          rcases h1 with ha | hq
          · exact Or.inl ha
          · exact Or.inr ⟨x, List.mem_cons_self x rest, qs, hgx, hq⟩
        · exact Or.inr ⟨id, List.mem_cons_of_mem x hid, ps, hps, hpm⟩

theorem expandFrontier_none_inv {α : Type} [DecidableEq α] (gp : α → Option (List α)) (root : α) :
    ∀ (toCheck acc : List α), expandFrontier gp root toCheck acc = none →
      ∃ id ∈ toCheck, ∃ ps, gp id = some ps ∧ root ∈ ps := by
  intro toCheck
  induction toCheck with
  | nil => intro acc h; simp [expandFrontier] at h
  | cons x rest ih =>
    intro acc h
    cases hgx : gp x with
    | none =>
      rw [expandFrontier_cons_none gp root x rest acc hgx] at h
      rcases ih acc h with ⟨id, hid, ps, hps, hr⟩
      exact ⟨id, List.mem_cons_of_mem x hid, ps, hps, hr⟩
    | some qs =>
      cases hpp : pushParents root qs acc with
      | none => exact ⟨x, List.mem_cons_self x rest, qs, hgx, pushParents_none_inv root qs acc hpp⟩
      | some acc2 =>
        rw [expandFrontier_cons_some gp root x rest acc qs acc2 hgx hpp] at h
        rcases ih acc2 h with ⟨id, hid, ps, hps, hr⟩
        exact ⟨id, List.mem_cons_of_mem x hid, ps, hps, hr⟩

theorem Reaches_pos {α : Type} (gp : α → Option (List α)) (root id : α) (n : Nat)
    (h : Reaches gp root id n) : 1 ≤ n := by
  cases h <;> omega

theorem isDescendantLoop_of_reaches {α : Type} [DecidableEq α] (gp : α → Option (List α))
    (root : α) : ∀ (fuel : Nat) (frontier : List α) (id : α) (n : Nat),
      id ∈ frontier → Reaches gp root id n → n ≤ fuel →
      isDescendantLoop gp root fuel frontier = true := by
  intro fuel
  induction fuel with
  | zero =>
    intro frontier id n _ hr hn
    have := Reaches_pos gp root id n hr
    omega
  | succ fuel ih =>
    intro frontier id n hmem hr hn
    cases hef : expandFrontier gp root frontier [] with
    | none => simp [isDescendantLoop, hef]
    | some next =>
      cases hr with
      | base idf ps hgp hroot =>
        rw [expandFrontier_found gp root frontier [] id ps hmem hgp hroot] at hef
        cases hef
      | step idf ps p m hgp hpm htail =>
        have hpnext : p ∈ next :=
          expandFrontier_mem gp root frontier [] next id ps p hmem hgp hpm hef
        have hne : next.isEmpty = false := by
          cases next
          · cases hpnext
          · rfl
        simp only [isDescendantLoop, hef, hne, Bool.false_eq_true, if_false]
        exact ih next p m hpnext htail (by omega)

theorem isDescendantLoop_reaches {α : Type} [DecidableEq α] (gp : α → Option (List α))
    (root : α) : ∀ (fuel : Nat) (frontier : List α),
      isDescendantLoop gp root fuel frontier = true →
      ∃ id ∈ frontier, ∃ n, 1 ≤ n ∧ n ≤ fuel ∧ Reaches gp root id n := by
  intro fuel
  induction fuel with
  | zero => intro frontier h; simp [isDescendantLoop] at h
  | succ fuel ih =>
    intro frontier h
    cases hef : expandFrontier gp root frontier [] with
    | none =>
      rcases expandFrontier_none_inv gp root frontier [] hef with ⟨id, hid, ps, hps, hr⟩
      exact ⟨id, hid, 1, le_refl 1, by omega, Reaches.base id ps hps hr⟩
    | some next =>
      rw [isDescendantLoop, hef] at h
      by_cases hne : next.isEmpty
      · simp [hne] at h
      · simp only [hne, Bool.false_eq_true, if_false] at h
        rcases ih next h with ⟨p, hpnext, m, hm1, hmf, hrp⟩
        rcases expandFrontier_mem_inv gp root frontier [] next hef p hpnext with h0 | ⟨id, hid, ps, hps, hpm⟩
        · cases h0
        · exact ⟨id, hid, m + 1, by omega, by omega, Reaches.step id ps p m hps hpm hrp⟩

theorem isDescendant_of_reaches {α : Type} [DecidableEq α] (gp : α → Option (List α))
    (root c : α) (h : c = root ∨ ∃ n, n ≤ 30 ∧ Reaches gp root c n) :
    isDescendant gp c root = true := by
  rcases h with h | ⟨n, hn, hr⟩
  · simp [isDescendant, h]
  · by_cases hc : c = root
    · simp [isDescendant, hc]
    · simp only [isDescendant, hc, if_false]
      exact isDescendantLoop_of_reaches gp root 30 [c] c n (by simp) hr hn

theorem isDescendant_reaches {α : Type} [DecidableEq α] (gp : α → Option (List α))
    (root c : α) (h : isDescendant gp c root = true) :
    c = root ∨ ∃ n, 1 ≤ n ∧ n ≤ 30 ∧ Reaches gp root c n := by
  by_cases hc : c = root
  · exact Or.inl hc
  · simp only [isDescendant, hc, if_false] at h
    rcases isDescendantLoop_reaches gp root 30 [c] h with ⟨id, hid, n, h1, h30, hr⟩
    have hidc : id = c := by simpa using hid
    exact Or.inr ⟨n, h1, h30, hidc ▸ hr⟩

/-! Lemmas about the listing, batch-delete and move handlers. -/

theorem listLoop_trashed {α : Type} [DecidableEq α] (d : Drive α) (maxDepth : Option Int) :
    ∀ (fuel : Nat) (queue : List (α × Nat)) (f : Node α) (dep : Nat),
      (f, dep) ∈ listLoop d maxDepth fuel queue → f.trashed = false := by
  intro fuel
  induction fuel with
  | zero =>
    intro queue f dep h
    cases queue <;> simp [listLoop] at h
  | succ fuel ih =>
    intro queue f dep h
    cases queue with
    | nil => simp [listLoop] at h
    | cons hd tl =>
      obtain ⟨pid, depth⟩ := hd
      simp only [listLoop] at h
      rcases List.mem_append.mp h with h1 | h2
      · rcases List.mem_map.mp h1 with ⟨g, hg, hge⟩
        obtain ⟨hgf, -⟩ := Prod.mk.inj hge
        subst hgf
        have hp := (List.mem_filter.mp hg).2
        rcases Bool.and_eq_true_iff.mp hp with ⟨-, hnt⟩
        simpa using hnt
      · exact ih _ f dep h2

theorem batchDeleteStep_id {α : Type} [DecidableEq α] (root : α) (d : Drive α) (id : α) :
    (batchDeleteStep root d id).2.id = id := by
  unfold batchDeleteStep
  split
  · rfl
  · split <;> rfl

theorem batchDeleteLoop_ids {α : Type} [DecidableEq α] (root : α) :
    ∀ (ids : List α) (d : Drive α),
      ((batchDeleteLoop root d ids).2).map (fun r => r.id) = ids := by
  intro ids
  induction ids with
  | nil => intro d; simp [batchDeleteLoop]
  | cons id rest ih =>
    intro d
    simp [batchDeleteLoop, batchDeleteStep_id, ih]

theorem deleteFile_ok_not_mem {α : Type} [DecidableEq α] (d d2 : Drive α) (id : α)
    (h : deleteFile d id = Except.ok d2) : ∀ n ∈ d2.files, ¬(n.id = id) := by
  unfold deleteFile at h
  split at h
  · cases h
  · split at h
    · injection h with h2
      subst h2
      intro n hn
      have := (List.mem_filter.mp hn).2
      simpa using this
    · cases h

theorem filter_not_mem_self {α : Type} [DecidableEq α] (l : List α) :
    l.filter (fun p => !(decide (p ∈ l))) = [] :=
  List.filter_eq_nil_iff.mpr (fun a ha => by simp [ha])

theorem find?_moveUpdate {α : Type} [DecidableEq α] (id newParentId : α) (previous : List α) :
    ∀ files : List (Node α),
      (moveUpdate files id newParentId previous).find? (fun n => decide (n.id = id)) =
        (files.find? (fun n => decide (n.id = id))).map (fun n =>
          { n with parents := n.parents.filter (fun p => !(decide (p ∈ previous))) ++ [newParentId] }) := by
  intro files
  induction files with
  | nil => simp [moveUpdate]
  | cons n rest ih =>
    have hg : moveUpdate (n :: rest) id newParentId previous =
        (if n.id = id then
          { n with parents := n.parents.filter (fun p => !(decide (p ∈ previous))) ++ [newParentId] }
        else n) :: moveUpdate rest id newParentId previous := by
      simp [moveUpdate]
    by_cases hn : n.id = id
    · rw [hg, if_pos hn, List.find?_cons_of_pos _ (by simp [hn]),
        List.find?_cons_of_pos _ (by simp [hn])]
      simp
    · rw [hg, if_neg hn, List.find?_cons_of_neg _ (by simp [hn]),
        List.find?_cons_of_neg _ (by simp [hn])]
      exact ih

/-! The claims. -/

/-- Claim C2: `isDescendant(candidate, root)` returns true when the candidate
equals the root, and whenever some chain of at most 30 successfully fetchable
parent links (through any path of the multi-parent DAG) connects the candidate
to the root. -/
theorem claim_C2_reachability (α : Type) [DecidableEq α] (gp : α → Option (List α))
    (root c : α) (h : c = root ∨ ∃ n, n ≤ 30 ∧ Reaches gp root c n) :
    isDescendant gp c root = true :=
  isDescendant_of_reaches gp root c h

/-- Witness for C2: node 1 with the single parent link `1 → 0` is a
descendant of root 0. -/
theorem claim_C2_reachability_witness : isDescendant gpChain 1 0 = true :=
  claim_C2_reachability Nat gpChain 0 1
    (Or.inr ⟨1, by omega, Reaches.base 1 [0] rfl (by simp)⟩)

/-- Claim C3: a candidate other than the root with no chain of at most 30
parent links to the root — whether its shortest path exceeds the 30-hop
budget or no path exists at all (empty frontier) — yields
`isDescendant = false` (fail-closed). -/
theorem claim_C3_boundedness (α : Type) [DecidableEq α] (gp : α → Option (List α))
    (root c : α) (hne : c ≠ root) (hnr : ∀ n, n ≤ 30 → ¬ Reaches gp root c n) :
    isDescendant gp c root = false := by
  cases h : isDescendant gp c root
  · rfl
  · rcases isDescendant_reaches gp root c h with h1 | ⟨n, -, h30, hr⟩
    · exact absurd h1 hne
    · exact absurd hr (hnr n h30)

/-- Witness for C3: with every metadata fetch failing, node 1 has no path to
root 0 and the check fails closed. -/
theorem claim_C3_boundedness_witness : isDescendant gpNone 1 0 = false :=
  claim_C3_boundedness Nat gpNone 0 1 (by decide)
    (fun n _ h => by
      cases h with
      | base idf ps hgp hroot => exact Option.noConfusion hgp
      | step idf ps p m hgp hpm htail => exact Option.noConfusion hgp)

/-- Claim C4: a frontier member whose metadata fetch fails is dropped from the
level expansion without failing the whole call — the rest of the frontier is
still expanded — and a candidate connected to the root through some other
branch within the 30-hop budget is still accepted. -/
theorem claim_C4_branch_drop (α : Type) [DecidableEq α] (gp : α → Option (List α))
    (root b c : α) (n : Nat) (hb : gp b = none) :
    (∀ rest acc : List α,
        expandFrontier gp root (b :: rest) acc = expandFrontier gp root rest acc) ∧
    (n ≤ 30 → Reaches gp root c n → isDescendant gp c root = true) := by
  constructor
  · intro rest acc
    exact expandFrontier_cons_none gp root b rest acc hb
  · intro hn hr
    exact isDescendant_of_reaches gp root c (Or.inr ⟨n, hn, hr⟩)

/-- Witness for C4: node 1 has parents 2 and 3; the fetch of 2 fails, yet the
branch through 3 reaches root 0, so the check still succeeds, and the failing
member 2 is simply dropped from a frontier. -/
theorem claim_C4_branch_drop_witness :
    expandFrontier gpBranch 0 [2, 9] [] = expandFrontier gpBranch 0 [9] [] ∧
    isDescendant gpBranch 1 0 = true := by
  have h := claim_C4_branch_drop Nat gpBranch 0 2 1 2 rfl
  exact ⟨h.1 [9] [], h.2 (by omega)
    (Reaches.step 1 [2, 3] 3 1 rfl (by simp) (Reaches.base 3 [0] rfl (by simp)))⟩

/-- Claim C1, counterexample to the claim as stated: on a store holding no
`Photo_Storage` folder, `delete_item` of an out-of-scope id returns the
denial, yet the store has mutated — root resolution created the root folder
before verification ran — so "no mutation is issued (state unchanged on
error)" fails. -/
theorem claim_C1_root_creation_counterexample :
    (delete_item drNoRoot 5).2 = OpResult.denied "Not allowed" ∧
    (delete_item drNoRoot 5).1.files ≠ drNoRoot.files := by
  constructor
  · decide
  · decide

/-- Claim C1 (amended): given the root folder already exists (so root
resolution creates nothing), every operation on a specific node verifies the
target id — and, for create/move/upload, the destination parent id — with
`isDescendant` against the resolved root before issuing any mutation, and
when verification fails it returns the scope denial with the store state
unchanged. -/
theorem claim_C1_scope_gate (α : Type) [DecidableEq α] (d : Drive α) (f : Node α)
    (hroot : findRootFolder d DRIVE_FOLDER_NAME = some f) :
    (∀ (pid : α) (dep : Option Int), isDescendant (getParents d) pid f.id = false →
        list_files d (some pid) dep = (d, OpResult.denied "Not allowed")) ∧
    (∀ fid : α, isDescendant (getParents d) fid f.id = false →
        read_file d fid = (d, OpResult.denied "Not allowed")) ∧
    (∀ (nm : String) (pid : α), isDescendant (getParents d) pid f.id = false →
        create_folder d nm (some pid) = (d, OpResult.denied "Parent not allowed")) ∧
    (∀ (nm mt : Option String) (pid : α) (fid : Option α),
        isDescendant (getParents d) pid f.id = false →
        upload_file d nm mt (some pid) fid = (d, OpResult.denied "Parent not allowed")) ∧
    (∀ (nm mt : Option String) (pid : Option α) (fid : α),
        isDescendant (getParents d) (pid.getD f.id) f.id = true →
        isDescendant (getParents d) fid f.id = false →
        upload_file d nm mt pid (some fid) = (d, OpResult.denied "Target not allowed")) ∧
    (∀ i np : α,
        isDescendant (getParents d) i f.id = false ∨
          isDescendant (getParents d) np f.id = false →
        move_item d i np = (d, OpResult.denied "Not allowed")) ∧
    (∀ (i : α) (nn : String), isDescendant (getParents d) i f.id = false →
        rename_item d i nn = (d, OpResult.denied "Not allowed")) ∧
    (∀ i : α, isDescendant (getParents d) i f.id = false →
        delete_item d i = (d, OpResult.denied "Not allowed")) ∧
    (∀ (d2 : Drive α) (root i : α), isDescendant (getParents d2) i root = false →
        batchDeleteStep root d2 i = (d2, ⟨i, false, some "not allowed"⟩)) := by
  have hens : ensureRootFolder d DRIVE_FOLDER_NAME = (d, f.id) := by
    simp [ensureRootFolder, hroot]
  refine ⟨?_, ?_, ?_, ?_, ?_, ?_, ?_, ?_, ?_⟩
  · intro pid dep h
    simp [list_files, hens, h]
  · intro fid h
    simp [read_file, hens, h]
  · intro nm pid h
    simp [create_folder, hens, h]
  · intro nm mt pid fid h
    simp [upload_file, hens, h]
  · intro nm mt pid fid hpar h
    simp [upload_file, hens, hpar, h]
  · intro i np h
    rcases h with h | h <;> simp [move_item, hens, h]
  · intro i nn h
    simp [rename_item, hens, h]
  · intro i h
    simp [delete_item, hens, h]
  · intro d2 root i h
    simp [batchDeleteStep, h]

/-- Witness for C1: in the demo store (whose root exists), deleting the
unknown id 99 is denied with the store unchanged. -/
theorem claim_C1_scope_gate_witness :
    delete_item drDemo 99 = (drDemo, OpResult.denied "Not allowed") :=
  (claim_C1_scope_gate Nat drDemo nodeRoot (by decide)).2.2.2.2.2.2.2.1 99 (by decide)

/-- Claim C5 (code bug): the name phase of both search surfaces returns
exactly the in-scope, non-trashed nodes whose name contains the query, and a
node whose body (but not name) matches is absent from it; the REST `/search`
route with `content=true` runs the content phase in addition and includes the
body-matching `x.txt` — but the MCP `search_files` handler ignores its
declared `contentSearch` parameter entirely (its result does not depend on
it), so the same file stays absent on that surface, contradicting the tool's
own schema ("Search file contents"). -/
theorem claim_C5_content_search :
    (∀ (α : Type) [DecidableEq α] (d : Drive α) (q : String) (b1 b2 : Bool),
        search_files d q b1 = search_files d q b2) ∧
    (∀ (α : Type) [DecidableEq α] (d : Drive α) (root : α) (q : String),
        scopeFilter d root (nameQuery d q) =
          d.files.filter (fun f =>
            isDescendant (getParents d) f.id root && (strContains f.name q && !f.trashed))) ∧
    (searchRoute drSearch (some "report") (some "true")).2 = OpResult.ok [nodeXtxt] ∧
    (search_files drSearch "report" true).2 = OpResult.ok [] := by
  refine ⟨?_, ?_, by decide, by decide⟩
  · intro α _ d q b1 b2
    rfl
  · intro α _ d root q
    simp [scopeFilter, nameQuery, List.filter_filter]

/-- Claim C6: the listing BFS emits each non-trashed child tagged with its
parent's depth and recurses only into folders below the depth bound: on the
store `root → A (folder) → B (file)`, depth 2 lists `[(A,0), (B,1)]` in that
order and depth 1 lists `[(A,0)]` only; and every emitted node is
non-trashed. -/
theorem claim_C6_listing :
    (list_files drDemo none (some 2)).2 = OpResult.ok [(nodeA, 0), (nodeB, 1)] ∧
    (list_files drDemo none (some 1)).2 = OpResult.ok [(nodeA, 0)] ∧
    (∀ (α : Type) [DecidableEq α] (d : Drive α) (maxDepth : Option Int) (fuel : Nat)
        (queue : List (α × Nat)) (f : Node α) (dep : Nat),
        (f, dep) ∈ listLoop d maxDepth fuel queue → f.trashed = false) := by
  refine ⟨by decide, by decide, ?_⟩
  intro α _ d maxDepth fuel queue f dep h
  exact listLoop_trashed d maxDepth fuel queue f dep h

/-- Witness for C6: folder `A` emitted by the listing loop is non-trashed. -/
theorem claim_C6_listing_witness : nodeA.trashed = false :=
  claim_C6_listing.2.2 Nat drDemo (some 2) 17 [(0, 0)] nodeA 0 (by decide)

/-- Claim C7: batch delete reports one itemized `{id, ok, reason}` entry per
input id in order; an out-of-scope id yields `ok:false, reason:"not allowed"`
and a failing delete yields `ok:false` with the error message, in both cases
leaving the state unchanged for that item and still processing the rest; an
in-scope id is deleted (`ok:true`) and stays deleted even when a later id in
the same batch fails — no rollback. -/
theorem claim_C7_batch :
    (∀ (α : Type) [DecidableEq α] (d : Drive α) (ids : List α), ids ≠ [] →
        ∃ rs, (batchDelete d ids).2 = OpResult.ok rs ∧ rs.map (fun r => r.id) = ids) ∧
    (∀ (α : Type) [DecidableEq α] (root : α) (d : Drive α) (id : α) (rest : List α),
        isDescendant (getParents d) id root = false →
        batchDeleteLoop root d (id :: rest) =
          ((batchDeleteLoop root d rest).1,
            ⟨id, false, some "not allowed"⟩ :: (batchDeleteLoop root d rest).2)) ∧
    (∀ (α : Type) [DecidableEq α] (root : α) (d : Drive α) (id : α) (rest : List α)
        (msg : String),
        isDescendant (getParents d) id root = true → deleteFile d id = Except.error msg →
        batchDeleteLoop root d (id :: rest) =
          ((batchDeleteLoop root d rest).1,
            ⟨id, false, some msg⟩ :: (batchDeleteLoop root d rest).2)) ∧
    (∀ (α : Type) [DecidableEq α] (root : α) (d d2 : Drive α) (X Y : α),
        isDescendant (getParents d) X root = true → deleteFile d X = Except.ok d2 →
        isDescendant (getParents d2) Y root = false →
        batchDeleteLoop root d [X, Y] =
          (d2, [⟨X, true, none⟩, ⟨Y, false, some "not allowed"⟩]) ∧
        ∀ n ∈ d2.files, ¬(n.id = X)) := by
  refine ⟨?_, ?_, ?_, ?_⟩
  · intro α _ d ids hne
    refine ⟨(batchDeleteLoop (ensureRootFolder d DRIVE_FOLDER_NAME).2
        (ensureRootFolder d DRIVE_FOLDER_NAME).1 ids).2, ?_,
      batchDeleteLoop_ids (ensureRootFolder d DRIVE_FOLDER_NAME).2 ids
        (ensureRootFolder d DRIVE_FOLDER_NAME).1⟩
    have hie : ids.isEmpty = false := by
      cases ids
      · exact absurd rfl hne
      · rfl
    simp [batchDelete, hie]
  · intro α _ root d id rest h
    simp [batchDeleteLoop, batchDeleteStep, h]
  · intro α _ root d id rest msg h hdel
    simp [batchDeleteLoop, batchDeleteStep, h, hdel]
  · intro α _ root d d2 X Y hX hdel hY
    refine ⟨?_, deleteFile_ok_not_mem d d2 X hdel⟩
    simp [batchDeleteLoop, batchDeleteStep, hX, hdel, hY]

/-- Witness for C7: deleting `[2 (in scope), 99 (unknown)]` from the demo
store removes node 2, reports it ok, and reports 99 as "not allowed". -/
theorem claim_C7_batch_witness :
    batchDeleteLoop 0 drDemo [2, 99] =
      (drDemoDel, [⟨2, true, none⟩, ⟨99, false, some "not allowed"⟩]) ∧
    ∀ n ∈ drDemoDel.files, ¬(n.id = 2) :=
  claim_C7_batch.2.2.2 Nat 0 drDemo drDemoDel 2 99 (by decide) (by rfl) (by decide)

/-- Claim C8: when a non-trashed folder with the configured name exists,
`ensureRootFolder` returns the first match in store order without creating
anything, so two sequential calls on the same state return the same id; when
none exists it creates a new folder with that name and returns the fresh
id. -/
theorem claim_C8_root_resolution (α : Type) [DecidableEq α] (d : Drive α) (name : String) :
    (∀ f : Node α, findRootFolder d name = some f →
        ensureRootFolder d name = (d, f.id) ∧
        (ensureRootFolder (ensureRootFolder d name).1 name).2 =
          (ensureRootFolder d name).2) ∧
    (findRootFolder d name = none →
        ensureRootFolder d name =
          ({ d with files := d.files ++ [⟨d.fresh d.counter, name, folderMime, [], false⟩],
                    counter := d.counter + 1 }, d.fresh d.counter)) := by
  constructor
  · intro f h
    have h1 : ensureRootFolder d name = (d, f.id) := by simp [ensureRootFolder, h]
    exact ⟨h1, by simp [h1]⟩
  · intro h
    simp [ensureRootFolder, h]

/-- Witness for C8: the demo store resolves its existing root (id 0) twice
without change. -/
theorem claim_C8_root_resolution_witness :
    ensureRootFolder drDemo "Photo_Storage" = (drDemo, 0) ∧
    (ensureRootFolder (ensureRootFolder drDemo "Photo_Storage").1 "Photo_Storage").2 =
      (ensureRootFolder drDemo "Photo_Storage").2 :=
  (claim_C8_root_resolution Nat drDemo "Photo_Storage").1 nodeRoot (by decide)

/-- Claim C9, counterexample to the claim as stated: on the REST `/list`
route the query parameter `depth=0` arrives as the truthy string "0", so it
is parsed to 0 — not replaced by the default 4 — and the traversal emits a
single level (`[(A,0)]`) instead of the default four-level listing
(`[(A,0), (B,1)]` on this store). -/
theorem claim_C9_rest_depth_counterexample :
    (restList drDemo none (some "0")).2 = OpResult.ok [(nodeA, 0)] ∧
    (restList drDemo none none).2 = OpResult.ok [(nodeA, 0), (nodeB, 1)] ∧
    (restList drDemo none (some "0")).2 ≠ (restList drDemo none none).2 := by
  refine ⟨by decide, by decide, by decide⟩

/-- Claim C9 (amended): on the MCP `list_files` tool a numeric depth of 0 —
like an omitted depth — is falsy and replaced by the default 4, and any
non-zero numeric depth is honored as given; on the REST `/list` route only an
omitted or empty depth parameter defaults to 4, while the string "0" parses
to 0 and is honored, producing a single-level listing. -/
theorem claim_C9_depth_default :
    mcpMaxDepth none = some 4 ∧ mcpMaxDepth (some 0) = some 4 ∧
    (∀ dep : Int, dep ≠ 0 → mcpMaxDepth (some dep) = some dep) ∧
    restMaxDepth none = some 4 ∧ restMaxDepth (some "") = some 4 ∧
    restMaxDepth (some "0") = some 0 ∧
    (list_files drDemo none (some 0)).2 = (list_files drDemo none none).2 := by
  refine ⟨by decide, by decide, ?_, by decide, by decide, by decide, by decide⟩
  intro dep h
  simp [mcpMaxDepth, h]

/-- Witness for C9: the non-zero MCP depth 7 is honored as given. -/
theorem claim_C9_depth_default_witness : mcpMaxDepth (some 7) = some 7 :=
  claim_C9_depth_default.2.2.1 7 (by decide)

/-- Claim C10: after a successful move, every previous parent link of the
moved node is removed and the new parent added, so its parent set is exactly
`[newParentId]` — even for a node that had several parents. -/
theorem claim_C10_move_parents (α : Type) [DecidableEq α] (d : Drive α)
    (id newParentId : α) (r : Node α)
    (h : (move_item d id newParentId).2 = OpResult.ok r) :
    ∃ n2, getNode (move_item d id newParentId).1 id = some n2 ∧
      n2.parents = [newParentId] := by
  cases hA : isDescendant (getParents (ensureRootFolder d DRIVE_FOLDER_NAME).1) id
      (ensureRootFolder d DRIVE_FOLDER_NAME).2 with
  | false => simp [move_item, hA] at h
  | true =>
    cases hB : isDescendant (getParents (ensureRootFolder d DRIVE_FOLDER_NAME).1) newParentId
        (ensureRootFolder d DRIVE_FOLDER_NAME).2 with
    | false => simp [move_item, hA, hB] at h
    | true =>
      cases hm : getNode (ensureRootFolder d DRIVE_FOLDER_NAME).1 id with
      | none => simp [move_item, hA, hB, hm] at h
      | some meta =>
        have hf : (ensureRootFolder d DRIVE_FOLDER_NAME).1.fails id = false := by
          by_cases hff : (ensureRootFolder d DRIVE_FOLDER_NAME).1.fails id
          · simp [getNode, hff] at hm
          · simpa using hff
        have hfind : (ensureRootFolder d DRIVE_FOLDER_NAME).1.files.find?
            (fun n => decide (n.id = id)) = some meta := by
          simpa [getNode, hf] using hm
        refine ⟨{ meta with parents := [newParentId] }, ?_, rfl⟩
        simp [move_item, hA, hB, hm, getNode, hf, find?_moveUpdate, hfind,
          filter_not_mem_self]

/-- Witness for C10: moving the two-parent file 3 (parents `P1`,`P2`) to `P1`
leaves it with the single parent `P1`. -/
theorem claim_C10_move_parents_witness :
    ∃ n2, getNode (move_item drMove 3 1).1 3 = some n2 ∧ n2.parents = [1] :=
  claim_C10_move_parents Nat drMove 3 1 ⟨3, "X", "text/plain", [1], false⟩ (by decide)
